import Mathlib

/-!
Shallow embedding of the HTTP server in `app/server.go`.

Conventions of the embedding:
* Go strings are modelled as Lean `String` (sequences of characters); `len`
  is modelled by character count, which agrees with Go's byte count on the
  ASCII data all of the protocol machinery manipulates.
* `strings.Split`, `strings.Join`, `strings.TrimSuffix` and `strconv.Atoi`
  are modelled by `splitChar` / `splitCS`, `joinSep`, `trimSuffixL` and
  `atoi` below, each a direct transcription of the Go semantics actually
  exercised by the server (non-empty separators, no overflow-sized numbers).
* `bufio.Reader.ReadString` over a finite connection stream is modelled by
  first cutting the stream into its newline-terminated segments
  (`splitLines`); the trailing unterminated segment corresponds to the read
  that returns `io.EOF`.  The Go `receive` loop discards that read and, since
  `break` inside `select` does not leave the `for` loop and the reader state
  no longer changes, re-executes the same iteration forever; the outcome
  constructor `RecvOutcome.diverges` denotes that infinite loop.
* A Go runtime panic (out-of-range index) is denoted by `RecvOutcome.crash`.
-/

namespace HttpSrv

/-- Status-line constant `ok` of server.go. -/
def ok : String := "HTTP/1.1 200 OK"

/-- Status-line constant `created` of server.go. -/
def created : String := "HTTP/1.1 201 CREATED"

/-- Status-line constant `not_found` of server.go. -/
def notFound : String := "HTTP/1.1 404 NOT FOUND"

/-- `strings.Join elems sep`: empty for `[]`, otherwise the elements
interleaved with `sep`. -/
def joinSep (sep : String) : List String → String
  | [] => ""
  | [x] => x
  | x :: y :: rest => x ++ sep ++ joinSep sep (y :: rest)

/-- `buildResponse` of server.go: serializes a status line, an optional
(`*[]string` in Go, hence `Option`) header list and a content string.
A nil slice behind a non-nil pointer is `some []`. -/
def buildResponse (protocol : String) (headers : Option (List String)) (content : String) : String :=
  let r := protocol ++ "\r\n"
  let r := match headers with
    | some hs => r ++ joinSep "\r\n" hs ++ "\r\n"
    | none => r
  let r := r ++ "\r\n"
  if content.length ≠ 0 then r ++ content ++ "\r\n" else r

/-- `strings.Split s sep` for a single-character separator `c`
(used with `" "` and `"/"` in server.go). -/
def splitChar (c : Char) : List Char → List (List Char)
  | [] => [[]]
  | d :: rest =>
    if d = c then [] :: splitChar c rest
    else
      match splitChar c rest with
      | l :: ls => (d :: l) :: ls
      | [] => [[d]]

/-- `strings.Split s ": "` — leftmost, non-overlapping split on the
two-character separator `": "` (used for header lines in server.go). -/
def splitCS : List Char → List (List Char)
  | [] => [[]]
  | [c] => [[c]]
  | c1 :: c2 :: rest =>
    if c1 = ':' ∧ c2 = ' ' then [] :: splitCS rest
    else
      match splitCS (c2 :: rest) with
      | l :: ls => (c1 :: l) :: ls
      | [] => [[c1]]

/-- `strings.TrimSuffix s suf`: drop `suf` if it is a suffix, else leave
`s` unchanged. -/
def trimSuffixL (s suf : List Char) : List Char :=
  if suf.isSuffixOf s then s.take (s.length - suf.length) else s

/-- Digit-string value (no sign), `none` on the empty string or any
non-digit character — the core of `strconv.Atoi`. -/
def digitsVal : List Char → Option Nat
  | [] => none
  | l => if l.all Char.isDigit then some (l.foldl (fun a c => a * 10 + (c.toNat - 48)) 0) else none

/-- `strconv.Atoi`: optional sign followed by at least one digit.
(Overflow, which none of the inputs of interest reach, is not modelled.) -/
def atoi (s : String) : Option Int :=
  match s.data with
  | '+' :: rest => (digitsVal rest).map Int.ofNat
  | '-' :: rest => (digitsVal rest).map (fun n => -(n : Int))
  | l => (digitsVal l).map Int.ofNat

/-- Go map lookup `m[k]` (present/absent) over the association-list model
of `map[string]string`. -/
def lookupHeader : List (String × String) → String → Option String
  | [], _ => none
  | (k, v) :: rest, key => if k = key then some v else lookupHeader rest key

/-- Go map assignment `m[k] = v`: overwrite the entry if the key is
present, append it otherwise. -/
def insertHeader : List (String × String) → String → String → List (String × String)
  | [], k, v => [(k, v)]
  | (k', v') :: rest, k, v =>
    if k' = k then (k, v) :: rest else (k', v') :: insertHeader rest k v

/-- Cut a raw stream into its `\n`-terminated segments (each returned
including its `\n`, exactly as `bufio.Reader.ReadString '\n'` yields them)
plus the trailing segment that ends at end-of-stream without a `\n`. -/
def splitLines : List Char → List (List Char) × List Char
  | [] => ([], [])
  | c :: rest =>
    let (ls, leftover) := splitLines rest
    if c = '\n' then ([c] :: ls, leftover)
    else
      match ls with
      | [] => ([], c :: leftover)
      | l :: ls' => ((c :: l) :: ls', leftover)

/-- The `request` struct of server.go. -/
structure Request where
  headers : List (String × String)
  protocol : String
  content : String
deriving DecidableEq, Repr

/-- Possible outcomes of `connection.receive`: a returned request, a
returned error value, a Go runtime panic, or an infinite loop. -/
inductive RecvOutcome where
  | ok (r : Request)
  | err (msg : String)
  | crash (msg : String)
  | diverges
deriving DecidableEq, Repr

/-- The `for` loop of `connection.receive` in server.go, iterating over the
successive `ReadString '\n'` results.  The context is `context.Background()`
(no deadline, never done), so the `ctx.Done()` branch never fires.  When the
reader hits end-of-stream (`lines` exhausted) the Go code discards the
partial read and `break`s only out of the `select`, re-running the same
iteration with unchanged state forever: `.diverges`. -/
def processLines : List (List Char) → Bool → Bool → List (String × String) → String → Int → Int → String → RecvOutcome
  | [], _, _, _, _, _, _, _ => .diverges
  | lineRaw :: rest, protocolProcessed, headersProcessed, headers, protocol,
      contentExpectedLength, contentProcessedLength, content =>
    let line := trimSuffixL lineRaw ['\r', '\n']
    if !protocolProcessed then
      processLines rest true headersProcessed headers (String.mk line)
        contentExpectedLength contentProcessedLength content
    else if !headersProcessed then
      if line.length = 0 then
        match lookupHeader headers "Content-Length" with
        | none => .ok ⟨headers, protocol, ""⟩
        | some v =>
          match atoi v with
          | none => .err "invalid content length"
          | some n =>
            processLines rest protocolProcessed true headers protocol n
              contentProcessedLength content
      else
        match splitCS line with
        | k :: v :: _ =>
          processLines rest protocolProcessed headersProcessed
            (insertHeader headers (String.mk k) (String.mk v)) protocol
            contentExpectedLength contentProcessedLength content
        | _ => .crash "index out of range"
    else
      let content := content ++ String.mk line
      let processed := contentProcessedLength + (line.length : Int)
      if processed = contentExpectedLength then .ok ⟨headers, protocol, content⟩
      else
        processLines rest protocolProcessed headersProcessed headers protocol
          contentExpectedLength processed content

/-- `connection.receive` of server.go on a finite connection stream. -/
def receive (input : String) : RecvOutcome :=
  processLines (splitLines input.data).1 false false [] "" 0 0 ""

/-- Outcome of `os.Stat` as used by `handleGet`: an existing regular file
(with its contents, so `fileInfo.Size()` is the content length), an
existing directory, or "not exist". -/
inductive StatResult where
  | file (content : String)
  | dir
  | notExist

/-- One call to `buildResponse`: the arguments it was given. -/
structure ResponseMsg where
  protocol : String
  headers : Option (List String)
  content : String
deriving DecidableEq, Repr

/-- Externally visible effect of a handler run: the `buildResponse`
messages sent in order, the raw (unframed) file-content write of the GET
`files` route, and the file created/truncated and written by POST. -/
structure HandlerEffect where
  responses : List ResponseMsg
  raw : Option String
  written : Option (String × String)
deriving DecidableEq, Repr

/-- `connection.handleGet` of server.go.  `filesDir` is `c.filesDir`;
`stat` is the filesystem the GET `files` route consults.  `none` models a
Go runtime panic (indexing `pathSplit[1]` when the split has one element,
or the start line missing its second space-delimited token); the
`os.Stat`-failed-other-than-not-exist path (an error return in Go) is not
modelled, `stat` covering the three outcomes server.go distinguishes. -/
def handleGet (filesDir : String) (stat : String → StatResult) (req : Request) : Option HandlerEffect :=
  match (splitChar ' ' req.protocol.data).map String.mk with
  | _ :: path :: _ =>
    let pathSplit := (splitChar '/' path.data).map String.mk
    if pathSplit.length = 2 ∧ pathSplit.getD 1 "" = "" then
      some ⟨[⟨ok, none, ""⟩], none, none⟩
    else
      match pathSplit.get? 1 with
      | none => none
      | some seg =>
        if seg = "echo" then
          let c := joinSep "/" (pathSplit.drop 2)
          some ⟨[⟨ok, some ["Content-Type: text/plain",
            "Content-Length: " ++ toString c.length], c⟩], none, none⟩
        else if seg = "user-agent" then
          let c := (lookupHeader req.headers "User-Agent").getD ""
          some ⟨[⟨ok, some ["Content-Type: text/plain",
            "Content-Length: " ++ toString c.length], c⟩], none, none⟩
        else if seg = "files" then
          let fileName := filesDir ++ "/" ++ joinSep "/" (pathSplit.drop 2)
          match stat fileName with
          | .notExist => some ⟨[⟨notFound, some [], ""⟩], none, none⟩
          | .dir => some ⟨[⟨notFound, some [], ""⟩], none, none⟩
          | .file content =>
            some ⟨[⟨ok, some ["Content-Type: application/octet-stream",
              "Content-Length: " ++ toString content.length], ""⟩], some content, none⟩
        else
          some ⟨[⟨notFound, none, ""⟩, ⟨notFound, some [], ""⟩], none, none⟩
  | _ => none

/-- `connection.handlePost` of server.go.  Note the route check: the split
path must have at least four segments, segment 1 must be `files` and
segment 2 must equal `c.filesDir`; the written path is segments `[2:]`
rejoined (starting with `filesDir` itself).  `none` models the runtime
panic on a start line without a second space-delimited token. -/
def handlePost (filesDir : String) (req : Request) : Option HandlerEffect :=
  match (splitChar ' ' req.protocol.data).map String.mk with
  | _ :: path :: _ =>
    let pathSplit := (splitChar '/' path.data).map String.mk
    if pathSplit.length < 4 ∨ pathSplit.getD 1 "" ≠ "files" ∨ pathSplit.getD 2 "" ≠ filesDir then
      some ⟨[⟨notFound, none, ""⟩], none, none⟩
    else
      let fileName := joinSep "/" (pathSplit.drop 2)
      some ⟨[⟨created, none, ""⟩], none, some (fileName, req.content)⟩
  | _ => none

/-- The dispatch in `connection.handle` of server.go: route by the first
space-delimited token of the start line; an unsupported verb is an error
return (`none`, folded together with the panic case of the handlers). -/
def handleReq (filesDir : String) (stat : String → StatResult) (req : Request) : Option HandlerEffect :=
  match (splitChar ' ' req.protocol.data).map String.mk with
  | verb :: _ =>
    if verb = "GET" then handleGet filesDir stat req
    else if verb = "POST" then handlePost filesDir req
    else none
  | [] => none

/-! ### Client-side parse (modelled from the claim's words)

`clientParse` is not part of server.go: it is the reference reading of the
round-trip claim — an HTTP client that reads a status line, then
`Name: value` header lines up to a blank line, then `Content-Length`-many
raw bytes of body (zero when the header is absent). -/

/-- Read one `\r\n`-terminated line: the text before the first `\r\n`
(the terminator excluded) and the rest of the stream. `none` when no
`\r\n` occurs. -/
def readCRLFLine : List Char → Option (List Char × List Char)
  | [] => none
  | [_] => none
  | c1 :: c2 :: rest =>
    if c1 = '\r' ∧ c2 = '\n' then some ([], rest)
    else
      match readCRLFLine (c2 :: rest) with
      | some (l, r) => some (c1 :: l, r)
      | none => none

/-- Header block of the client parse: `Name: value` lines (split on the
first `": "`) up to and excluding a blank line.  `fuel` bounds the number
of lines read (any value above the line count behaves identically). -/
def clientHeaders : Nat → List Char → Option (List (String × String) × List Char)
  | 0, _ => none
  | fuel + 1, input =>
    match readCRLFLine input with
    | none => none
    | some (line, rest) =>
      if line = [] then some ([], rest)
      else
        match splitCS line with
        | k :: v :: _ =>
          match clientHeaders fuel rest with
          | some (pairs, rem) => some ((String.mk k, String.mk v) :: pairs, rem)
          | none => none
        | _ => none

/-- Modelled from the spec: parse a serialized response back "as an HTTP
client would" — status line, header lines until a blank line, then exactly
`Content-Length` raw bytes of body (zero bytes when the header is absent). -/
def clientParse (input : List Char) : Option (String × List (String × String) × String) :=
  match readCRLFLine input with
  | none => none
  | some (statusLine, rest) =>
    match clientHeaders (rest.length + 1) rest with
    | none => none
    | some (pairs, rem) =>
      match lookupHeader pairs "Content-Length" with
      | none => some (String.mk statusLine, pairs, "")
      | some v =>
        match atoi v with
        | none => none
        | some n =>
          if 0 ≤ n ∧ n.toNat ≤ rem.length then
            some (String.mk statusLine, pairs, String.mk (rem.take n.toNat))
          else none

/-- `strings.Join`-style interleaving at the character-list level. -/
def joinL (sep : List Char) : List (List Char) → List Char
  | [] => []
  | [x] => x
  | x :: y :: rest => x ++ sep ++ joinL sep (y :: rest)

/-- Whether the two-character separator `": "` occurs in the list. -/
def hasCS : List Char → Bool
  | c1 :: c2 :: rest => if c1 = ':' ∧ c2 = ' ' then true else hasCS (c2 :: rest)
  | _ => false

/-- Whether the two-character sequence `\r\n` occurs in the list. -/
def hasCRLF : List Char → Bool
  | c1 :: c2 :: rest => if c1 = '\r' ∧ c2 = '\n' then true else hasCRLF (c2 :: rest)
  | _ => false

/-- The (name, value) pair an HTTP client reads off a `Name: value` header
line (split on the first `": "`, as the server itself does). -/
def linePair (h : String) : String × String :=
  match splitCS h.data with
  | a :: b :: _ => (String.mk a, String.mk b)
  | _ => (h, "")

/-! ### Elementary facts about the embedding -/

theorem data_append (a b : String) : (a ++ b).data = a.data ++ b.data := rfl

theorem mk_data (s : String) : String.mk s.data = s := rfl

theorem mk_append (a b : List Char) : String.mk a ++ String.mk b = String.mk (a ++ b) := rfl

theorem length_data (s : String) : s.length = s.data.length := rfl

theorem str_ext {a b : String} (h : a.data = b.data) : a = b :=
  congrArg String.mk h

theorem str_append_assoc (a b c : String) : (a ++ b) ++ c = a ++ (b ++ c) :=
  str_ext (by simp [data_append, List.append_assoc])

/-! ### Lemmas about the split functions -/

theorem splitChar_ne_nil (c : Char) (l : List Char) : splitChar c l ≠ [] := by
  cases l with
  | nil => simp [splitChar]
  | cons d rest =>
    simp only [splitChar]
    split
    · simp
    · split <;> simp

theorem splitChar_no {c : Char} {l : List Char} (h : c ∉ l) : splitChar c l = [l] := by
  induction l with
  | nil => rfl
  | cons d rest ih =>
    rw [List.mem_cons, not_or] at h
    obtain ⟨h1, h2⟩ := h
    simp only [splitChar]
    rw [if_neg (fun hh => h1 (hh.symm)), ih h2]

theorem splitChar_sep {c : Char} {a : List Char} (h : c ∉ a) (b : List Char) :
    splitChar c (a ++ c :: b) = a :: splitChar c b := by
  induction a with
  | nil => simp [splitChar]
  | cons d a' ih =>
    rw [List.mem_cons, not_or] at h
    obtain ⟨h1, h2⟩ := h
    rw [List.cons_append]
    simp only [splitChar]
    rw [if_neg (fun hh => h1 (hh.symm)), ih h2]

theorem joinL_splitChar (c : Char) (l : List Char) : joinL [c] (splitChar c l) = l := by
  induction l with
  | nil => rfl
  | cons d rest ih =>
    simp only [splitChar]
    obtain ⟨x, xs, hx⟩ := List.exists_cons_of_ne_nil (splitChar_ne_nil c rest)
    by_cases hd : d = c
    · rw [if_pos hd, hx]
      rw [hx] at ih
      show [] ++ [c] ++ joinL [c] (x :: xs) = d :: rest
      rw [List.nil_append, hd]
      cases xs <;> simp [joinL] at ih ⊢ <;> rw [ih]
    · rw [if_neg hd, hx]
      rw [hx] at ih
      cases xs with
      | nil =>
        simp [joinL] at ih ⊢
        rw [ih]
      | cons y ys =>
        show joinL [c] ((d :: x) :: y :: ys) = d :: rest
        show (d :: x) ++ [c] ++ joinL [c] (y :: ys) = d :: rest
        rw [← ih]
        rfl

theorem splitCS_ne_nil (l : List Char) : splitCS l ≠ [] := by
  match l with
  | [] => simp [splitCS]
  | [c] => simp [splitCS]
  | c1 :: c2 :: rest =>
    simp only [splitCS]
    split
    · simp
    · split <;> simp

theorem splitCS_no {l : List Char} (h : hasCS l = false) : splitCS l = [l] := by
  induction l with
  | nil => rfl
  | cons c t ih =>
    cases t with
    | nil => rfl
    | cons c2 r =>
      simp only [hasCS] at h
      split at h
      · cases h
      · simp only [splitCS]
        rw [if_neg (by assumption), ih h]

theorem splitCS_sep {a : List Char} (h : hasCS a = false) (b : List Char) :
    splitCS (a ++ ':' :: ' ' :: b) = a :: splitCS b := by
  induction a with
  | nil => simp [splitCS]
  | cons d t ih =>
    cases t with
    | nil => simp [splitCS]
    | cons e r =>
      simp only [hasCS] at h
      split at h
      · cases h
      · have hih := ih h
        rw [show (e :: r) ++ ':' :: ' ' :: b = e :: (r ++ ':' :: ' ' :: b) from rfl] at hih
        rw [show (d :: e :: r) ++ ':' :: ' ' :: b = d :: e :: (r ++ ':' :: ' ' :: b) from rfl]
        simp only [splitCS]
        rw [if_neg (by assumption), hih]

theorem joinL_splitCS (l : List Char) : joinL [':', ' '] (splitCS l) = l := by
  induction l using splitCS.induct with
  | case1 => rfl
  | case2 c => rfl
  | case3 c1 c2 rest h ih =>
    obtain ⟨h1, h2⟩ := h
    subst h1; subst h2
    rw [show splitCS (':' :: ' ' :: rest) = [] :: splitCS rest from by simp [splitCS]]
    obtain ⟨x, xs, hx⟩ := List.exists_cons_of_ne_nil (splitCS_ne_nil rest)
    rw [hx]
    show [] ++ [':', ' '] ++ joinL [':', ' '] (x :: xs) = ':' :: ' ' :: rest
    rw [← hx, ih]
    rfl
  | case4 a b c hne l ls hm ih =>
    rw [show splitCS (a :: b :: c) = (a :: l) :: ls from by
      simp only [splitCS]; rw [if_neg hne, hm]]
    rw [hm] at ih
    cases ls with
    | nil =>
      show a :: l = a :: b :: c
      have : joinL [':', ' '] [l] = l := rfl
      rw [this] at ih
      rw [ih]
    | cons y ys =>
      show (a :: l) ++ [':', ' '] ++ joinL [':', ' '] (y :: ys) = a :: b :: c
      have : (a :: l) ++ [':', ' '] ++ joinL [':', ' '] (y :: ys)
          = a :: joinL [':', ' '] (l :: y :: ys) := rfl
      rw [this, ih]
  | case5 a b c hne hm =>
    exact absurd hm (splitCS_ne_nil _)

theorem splitLines_no_nl {a : List Char} (h : ('\n' : Char) ∉ a) : splitLines a = ([], a) := by
  induction a with
  | nil => rfl
  | cons d t ih =>
    rw [List.mem_cons, not_or] at h
    obtain ⟨h1, h2⟩ := h
    simp only [splitLines, ih h2]
    rw [if_neg (fun hh => h1 hh.symm)]

theorem splitLines_cons {a : List Char} (h : ('\n' : Char) ∉ a) (rest : List Char) :
    splitLines (a ++ '\n' :: rest)
      = ((a ++ ['\n']) :: (splitLines rest).1, (splitLines rest).2) := by
  induction a with
  | nil =>
    rcases hsl : splitLines rest with ⟨ls, lf⟩
    simp [splitLines, hsl]
  | cons d t ih =>
    rw [List.mem_cons, not_or] at h
    obtain ⟨h1, h2⟩ := h
    rw [List.cons_append]
    have hih := ih h2
    rcases hsl : splitLines (t ++ '\n' :: rest) with ⟨ls, lf⟩
    rw [hsl] at hih
    injection hih with hls hlf
    subst hls
    subst hlf
    simp only [splitLines, hsl]
    rw [if_neg (fun hh => h1 hh.symm)]
    rfl

theorem trimSuffixL_crlf (l : List Char) : trimSuffixL (l ++ ['\r', '\n']) ['\r', '\n'] = l := by
  unfold trimSuffixL
  rw [if_pos]
  · rw [show (l ++ ['\r', '\n']).length - (['\r', '\n'] : List Char).length = l.length from by
      simp]
    exact List.take_left l _
  · rw [List.isSuffixOf_iff_suffix]
    exact List.suffix_append l _

theorem joinSep_map_mk (sep : String) (ps : List (List Char)) :
    joinSep sep (ps.map String.mk) = String.mk (joinL sep.data ps) := by
  induction ps with
  | nil => rfl
  | cons x t ih =>
    cases t with
    | nil => rfl
    | cons y r =>
      show String.mk x ++ sep ++ joinSep sep (List.map String.mk (y :: r))
        = String.mk (x ++ sep.data ++ joinL sep.data (y :: r))
      rw [ih]
      exact str_ext (by simp [data_append])

/-! ### Claim theorems: concrete evaluations -/

/-- Claim C1 (code bug): on a request whose header block contains the line
`Foo` (no `": "` separator), `receive` does not surface a `MalformedHeader`
error value; the unchecked indexing `headerSplit[1]` in server.go panics
with an index-out-of-range runtime error, which escapes the function. -/
theorem claimC1_header_without_sep_panics :
    receive "GET / HTTP/1.1\r\nFoo\r\n\r\n" = .crash "index out of range" := by decide

/-- Claim C4 (code bug): a request declaring `Content-Length: 5` whose
stream ends after only two body bytes makes `receive` loop forever
(`break` leaves only the `select`, and the reader keeps returning EOF);
it neither fails with a `TruncatedBody`-style error nor returns. -/
theorem claimC4_truncated_body_loops_forever :
    receive "GET / HTTP/1.1\r\nContent-Length: 5\r\n\r\nab" = .diverges := by decide

/-- Claim C6 (code bug): a stream that ends without a trailing line
terminator does not yield the buffered partial bytes as a final line:
the partial read is discarded (second conjunct: it is exactly the
leftover segment) and the read loop repeats forever. -/
theorem claimC6_eof_partial_line_dropped_and_loops :
    receive "GET / HTTP/1.1" = .diverges
    ∧ (splitLines "GET / HTTP/1.1".data).2 = "GET / HTTP/1.1".data := by decide

/-- Claim C7 (code bug): a non-numeric `Content-Length` is rejected with
the error value `invalid content length`, but a negative integer such as
`-5` is accepted by `strconv.Atoi`, so the parser transitions to the body
state and then loops forever (the running count can never equal `-5`). -/
theorem claimC7_negative_content_length_accepted :
    receive "GET / HTTP/1.1\r\nContent-Length: abc\r\n\r\n" = .err "invalid content length"
    ∧ atoi "-5" = some (-5)
    ∧ receive "GET / HTTP/1.1\r\nContent-Length: -5\r\n\r\n" = .diverges := by decide

/-- Claim C2 counterexample: `POST /files/foo` (first segment `files`, one
further segment) with configured directory `tmp` is answered 404 and
writes nothing — not 201 — because `handlePost` demands at least four
path segments with segment 2 equal to the configured directory. -/
theorem claimC2_counterexample :
    handlePost "tmp" ⟨[], "POST /files/foo HTTP/1.1", "data"⟩
      = some ⟨[⟨notFound, none, ""⟩], none, none⟩
    ∧ notFound ≠ created := by decide

/-- Claim C3 counterexample: with `Content-Length: 4` and body bytes
`ab\r\ncd\r\n` on the wire, `receive` returns the body `abcd` — the
parser reads line-delimited and strips each `\r\n` — instead of the
first 4 raw bytes `ab\r\n`. -/
theorem claimC3_counterexample :
    receive "GET / HTTP/1.1\r\nContent-Length: 4\r\n\r\nab\r\ncd\r\n"
      = .ok ⟨[("Content-Length", "4")], "GET / HTTP/1.1", "abcd"⟩
    ∧ "abcd" ≠ "ab\r\n" := by decide

/-- Claim C5 counterexample: an empty-but-present header list (`some []`,
Go: a non-nil pointer to a nil/empty slice) serializes with an extra
blank line, unlike the no-headers (`none`, Go: nil pointer) case. -/
theorem claimC5_counterexample :
    buildResponse ok (some []) "" = "HTTP/1.1 200 OK\r\n\r\n\r\n"
    ∧ buildResponse ok none "" = "HTTP/1.1 200 OK\r\n\r\n"
    ∧ buildResponse ok (some []) "" ≠ buildResponse ok none "" := by decide

/-- Claim C8 counterexample: the triple (200 OK, no headers, body `hello`)
does not round-trip: the serialized response carries no `Content-Length`
header, so the client reads a zero-length body, not `hello`. -/
theorem claimC8_counterexample :
    clientParse (buildResponse "HTTP/1.1 200 OK" none "hello").data
      = some ("HTTP/1.1 200 OK", [], "")
    ∧ "" ≠ "hello" := by decide

/-- Claim C5 (amended): the serialized response is always
status-line `\r\n` header-block `\r\n` body-part.  With a nil header
pointer (`none`) the header block is absent and exactly one blank line
follows the status line (`status-line\r\n\r\n` when the body is empty);
with a present header list the joined headers are followed by `\r\n\r\n`;
in particular a present-but-empty header list yields
`status-line\r\n\r\n\r\n` — one extra blank line, not the same bytes as
the `none` case (see the counterexample). -/
theorem claimC5_blank_line (p body : String) (hs : List String) :
    buildResponse p none "" = p ++ "\r\n" ++ "\r\n"
    ∧ buildResponse p none body
        = p ++ "\r\n" ++ "\r\n" ++ (if body.length ≠ 0 then body ++ "\r\n" else "")
    ∧ buildResponse p (some hs) body
        = p ++ "\r\n" ++ joinSep "\r\n" hs ++ "\r\n" ++ "\r\n"
            ++ (if body.length ≠ 0 then body ++ "\r\n" else "")
    ∧ buildResponse p (some []) body
        = p ++ "\r\n" ++ "\r\n" ++ "\r\n" ++ (if body.length ≠ 0 then body ++ "\r\n" else "") := by
  refine ⟨?_, ?_, ?_, ?_⟩ <;>
    · apply str_ext
      dsimp only [buildResponse, joinSep]
      split <;> simp_all [data_append, List.append_assoc]

/-- Claim C2 (amended): a POST whose target is
`/files/<configured-directory>/<rest>` — segment 2 equal to the configured
directory, at least one further segment — writes the request body verbatim
to `<configured-directory>/<rest>` (segments `[2:]` rejoined) and responds
`201 CREATED` with no headers and no body.  Targets `/files/<rest>` without
the repeated directory segment are answered 404 and write nothing
(see the counterexample). -/
theorem claimC2_files_write (d name body : String) (hds : List (String × String))
    (h1 : ('/' : Char) ∉ d.data) (h2 : (' ' : Char) ∉ d.data)
    (h3 : (' ' : Char) ∉ name.data) :
    handlePost d ⟨hds, "POST " ++ ("/files/" ++ d ++ "/" ++ name) ++ " HTTP/1.1", body⟩
      = some ⟨[⟨created, none, ""⟩], none, some (d ++ "/" ++ name, body)⟩ := by
  have epost : "POST ".data = "POST".data ++ [' '] := by decide
  have ehttp : " HTTP/1.1".data = ' ' :: "HTTP/1.1".data := by decide
  have efiles : "/files/".data = [] ++ '/' :: ("files".data ++ '/' :: ([] : List Char)) := by decide
  have hpath : ("/files/" ++ d ++ "/" ++ name).data
      = [] ++ '/' :: ("files".data ++ '/' :: (d.data ++ '/' :: name.data)) := by
    simp [data_append, efiles]
  have hpnosp : (' ' : Char) ∉ ("/files/" ++ d ++ "/" ++ name).data := by
    have lf : ¬ (' ' : Char) ∈ "/files/".data := by decide
    have ls : ¬ (' ' : Char) ∈ "/".data := by decide
    simp [data_append, List.mem_append, h2, h3, lf, ls]
  have hdata : (("POST " ++ ("/files/" ++ d ++ "/" ++ name) ++ " HTTP/1.1")).data
      = "POST".data ++ ' ' :: (("/files/" ++ d ++ "/" ++ name).data ++ ' ' :: "HTTP/1.1".data) := by
    simp [data_append, epost, ehttp]
  have hspace : splitChar ' ' (("POST " ++ ("/files/" ++ d ++ "/" ++ name) ++ " HTTP/1.1")).data
      = ["POST".data, ("/files/" ++ d ++ "/" ++ name).data, "HTTP/1.1".data] := by
    rw [hdata, splitChar_sep (by decide), splitChar_sep hpnosp,
      splitChar_no (by decide : (' ' : Char) ∉ "HTTP/1.1".data)]
  have hslash : splitChar '/' ("/files/" ++ d ++ "/" ++ name).data
      = [] :: "files".data :: d.data :: splitChar '/' name.data := by
    rw [hpath, splitChar_sep (by decide), splitChar_sep (by decide : ('/' : Char) ∉ "files".data),
      splitChar_sep h1]
  obtain ⟨x, xs, hx⟩ := List.exists_cons_of_ne_nil (splitChar_ne_nil '/' name.data)
  have hjoin : joinSep "/" ((splitChar '/' name.data).map String.mk) = name := by
    rw [joinSep_map_mk]
    show String.mk (joinL ['/'] (splitChar '/' name.data)) = name
    rw [joinL_splitChar]
  unfold handlePost
  dsimp only
  rw [hspace]
  dsimp only [List.map]
  rw [show ((([] : List Char).append d.data).append ['/']).append name.data
      = d.data ++ '/' :: name.data from by simp]
  rw [splitChar_sep h1, hx]
  dsimp only [List.map, List.drop, joinSep]
  rw [if_neg]
  · rw [mk_data]
    rw [show String.mk x :: List.map String.mk xs
        = List.map String.mk (splitChar '/' name.data) from by rw [hx, List.map_cons]]
    rw [hjoin]
  · push_neg
    refine ⟨?_, ?_, ?_⟩
    · simp only [List.length_cons, List.length_map]
      omega
    · rfl
    · rfl

/-- Witness for C2 (amended) at `d = tmp`, `name = foo`, body `data`. -/
theorem claimC2_files_write_witness :
    handlePost "tmp" ⟨[], "POST " ++ ("/files/" ++ "tmp" ++ "/" ++ "foo") ++ " HTTP/1.1", "data"⟩
      = some ⟨[⟨created, none, ""⟩], none, some ("tmp" ++ "/" ++ "foo", "data")⟩ :=
  claimC2_files_write "tmp" "foo" "data" [] (by decide) (by decide) (by decide)

theorem processLines_header_step (lineRaw : List Char) (rest : List (List Char))
    (hdrs : List (String × String)) (proto : String) (e p : Int) (c : String)
    (X : List Char) (ht : trimSuffixL lineRaw ['\r', '\n'] = X) (hne : X.length ≠ 0)
    (k kv : List Char) (tl : List (List Char)) (hcs : splitCS X = k :: kv :: tl) :
    processLines (lineRaw :: rest) true false hdrs proto e p c
      = processLines rest true false (insertHeader hdrs (String.mk k) (String.mk kv)) proto e p c := by
  simp only [processLines, ht, hcs]
  simp [hne]

theorem processLines_blank_no_cl (lineRaw : List Char) (rest : List (List Char))
    (hdrs : List (String × String)) (proto : String) (e p : Int) (c : String)
    (ht : trimSuffixL lineRaw ['\r', '\n'] = [])
    (hlk : lookupHeader hdrs "Content-Length" = none) :
    processLines (lineRaw :: rest) true false hdrs proto e p c = .ok ⟨hdrs, proto, ""⟩ := by
  simp only [processLines, ht, hlk]
  simp

theorem claimC10_double_separator (n v r : String)
    (hn1 : hasCS n.data = false) (hv1 : hasCS v.data = false)
    (hn2 : ('\n' : Char) ∉ n.data) (hv2 : ('\n' : Char) ∉ v.data)
    (hr2 : ('\n' : Char) ∉ r.data) (hcl : n ≠ "Content-Length") :
    receive ("GET / HTTP/1.1\r\n" ++ n ++ ": " ++ v ++ ": " ++ r ++ "\r\n\r\n")
      = .ok ⟨[(n, v)], "GET / HTTP/1.1", ""⟩ := by
  have e1 : "GET / HTTP/1.1\r\n".data = "GET / HTTP/1.1\r".data ++ ['\n'] := by decide
  have e2 : ": ".data = [':', ' '] := by decide
  have e3 : "\r\n\r\n".data = ['\r', '\n', '\r', '\n'] := by decide
  have hdata : ("GET / HTTP/1.1\r\n" ++ n ++ ": " ++ v ++ ": " ++ r ++ "\r\n\r\n").data
      = "GET / HTTP/1.1\r".data
        ++ '\n' :: (((n.data ++ ':' :: ' ' :: (v.data ++ ':' :: ' ' :: r.data)) ++ ['\r'])
          ++ '\n' :: (['\r'] ++ '\n' :: ([] : List Char))) := by
    simp [data_append, e1, e2, e3, List.append_assoc]
  have hnoX : ('\n' : Char) ∉ ((n.data ++ ':' :: ' ' :: (v.data ++ ':' :: ' ' :: r.data)) ++ ['\r']) := by
    simp [List.mem_append, List.mem_cons, hn2, hv2, hr2]
  unfold receive
  rw [hdata, splitLines_cons (by decide), splitLines_cons hnoX,
    splitLines_cons (by decide), splitLines_no_nl (by decide)]
  have t2 : trimSuffixL (((n.data ++ ':' :: ' ' :: (v.data ++ ':' :: ' ' :: r.data)) ++ ['\r']) ++ ['\n']) ['\r', '\n']
      = n.data ++ ':' :: ' ' :: (v.data ++ ':' :: ' ' :: r.data) := by
    rw [show ((n.data ++ ':' :: ' ' :: (v.data ++ ':' :: ' ' :: r.data)) ++ ['\r']) ++ ['\n']
        = (n.data ++ ':' :: ' ' :: (v.data ++ ':' :: ' ' :: r.data)) ++ ['\r', '\n'] from by simp,
      trimSuffixL_crlf]
  have hcs : splitCS (n.data ++ ':' :: ' ' :: (v.data ++ ':' :: ' ' :: r.data))
      = n.data :: v.data :: splitCS r.data := by
    rw [splitCS_sep hn1, splitCS_sep hv1]
  have hlen : (n.data ++ ':' :: ' ' :: (v.data ++ ':' :: ' ' :: r.data)).length ≠ 0 := by
    simp [List.length_append]
  have s1 : processLines
      [("GET / HTTP/1.1\r".data ++ ['\n']),
       (((n.data ++ ':' :: ' ' :: (v.data ++ ':' :: ' ' :: r.data)) ++ ['\r']) ++ ['\n']),
       (['\r'] ++ ['\n'])] false false [] "" 0 0 ""
      = processLines
        [(((n.data ++ ':' :: ' ' :: (v.data ++ ':' :: ' ' :: r.data)) ++ ['\r']) ++ ['\n']),
         (['\r'] ++ ['\n'])] true false [] "GET / HTTP/1.1" 0 0 "" := rfl
  dsimp only
  rw [s1]
  rw [processLines_header_step _ _ _ _ _ _ _ _ t2 hlen _ _ _ hcs]
  have hins : insertHeader [] (String.mk n.data) (String.mk v.data) = [(n, v)] := by
    simp [insertHeader, mk_data]
  rw [hins]
  have hlk : lookupHeader [(n, v)] "Content-Length" = none := by
    simp [lookupHeader, hcl]
  exact processLines_blank_no_cl _ _ _ _ _ _ _ (by decide) hlk

/-- Witness for C10 at the header line X: a: b - the stored value is a. -/
theorem claimC10_double_separator_witness :
    receive ("GET / HTTP/1.1\r\n" ++ "X" ++ ": " ++ "a" ++ ": " ++ "b" ++ "\r\n\r\n")
      = .ok ⟨[("X", "a")], "GET / HTTP/1.1", ""⟩ :=
  claimC10_double_separator "X" "a" "b" (by decide) (by decide) (by decide) (by decide)
    (by decide) (by decide)

/-- Claim C9: every response message a completed handler run passes to
`buildResponse` carries one of the three status-line constants of
server.go — 200 OK, 201 CREATED, 404 NOT FOUND — never any other text. -/
theorem claimC9_status_line_enumeration (fd : String) (stat : String → StatResult)
    (req : Request) (eff : HandlerEffect) (m : ResponseMsg)
    (h : handleReq fd stat req = some eff) (hm : m ∈ eff.responses) :
    m.protocol = ok ∨ m.protocol = created ∨ m.protocol = notFound := by
  unfold handleReq handleGet handlePost at h
  dsimp only at h
  iterate 12 (all_goals try split at h)
  all_goals injection h
  all_goals subst_vars
  all_goals fin_cases hm <;> simp

/-- Witness for C9 at a concrete run: the root request over an empty
filesystem produces the single 200 response. -/
theorem claimC9_witness :
    (⟨ok, none, ""⟩ : ResponseMsg).protocol = ok
    ∨ (⟨ok, none, ""⟩ : ResponseMsg).protocol = created
    ∨ (⟨ok, none, ""⟩ : ResponseMsg).protocol = notFound :=
  claimC9_status_line_enumeration "." (fun _ => .notExist)
    ⟨[], "GET / HTTP/1.1", ""⟩ ⟨[⟨ok, none, ""⟩], none, none⟩ ⟨ok, none, ""⟩
    (by decide) (by decide)

theorem str_length_append (a b : String) : (a ++ b).length = a.length + b.length := by
  simp only [length_data, data_append, List.length_append]

theorem processLines_body_ok :
    ∀ (lines : List (List Char)) (pp : Bool) (hdrs : List (String × String))
      (proto : String) (e p : Int) (c : String) (req : Request),
      p = (c.length : Int) →
      processLines lines pp true hdrs proto e p c = .ok req →
      req.headers = hdrs ∧ (req.content.length : Int) = e := by
  intro lines
  induction lines with
  | nil =>
    intro pp hdrs proto e p c req hp hok
    simp [processLines] at hok
  | cons lineRaw rest ih =>
    intro pp hdrs proto e p c req hp hok
    simp only [processLines] at hok
    cases pp with
    | false =>
      simp only [Bool.not_false, if_true] at hok
      exact ih true hdrs _ e p c req hp hok
    | true =>
      simp only [Bool.not_true] at hok
      rw [if_neg (by simp)] at hok
      rw [if_neg (by simp)] at hok
      split at hok
      · injection hok with hreq
        subst hreq
        refine ⟨rfl, ?_⟩
        show ((c ++ String.mk (trimSuffixL lineRaw ['\r', '\n'])).length : Int) = e
        rw [str_length_append,
          show (String.mk (trimSuffixL lineRaw ['\r', '\n'])).length
            = (trimSuffixL lineRaw ['\r', '\n']).length from rfl]
        push_cast
        rw [← hp]
        assumption
      · have hlen : p + ((trimSuffixL lineRaw ['\r', '\n']).length : Int)
            = ((c ++ String.mk (trimSuffixL lineRaw ['\r', '\n'])).length : Int) := by
          rw [str_length_append,
            show (String.mk (trimSuffixL lineRaw ['\r', '\n'])).length
              = (trimSuffixL lineRaw ['\r', '\n']).length from rfl]
          push_cast
          rw [hp]
        exact ih true hdrs proto e (p + ((trimSuffixL lineRaw ['\r', '\n']).length : Int))
          (c ++ String.mk (trimSuffixL lineRaw ['\r', '\n'])) req hlen hok

theorem processLines_headers_ok :
    ∀ (lines : List (List Char)) (pp : Bool) (hdrs : List (String × String))
      (proto : String) (e p : Int) (c : String) (req : Request),
      p = (c.length : Int) →
      processLines lines pp false hdrs proto e p c = .ok req →
      ∀ (v : String) (n : Int),
        lookupHeader req.headers "Content-Length" = some v → atoi v = some n →
        (req.content.length : Int) = n := by
  intro lines
  induction lines with
  | nil =>
    intro pp hdrs proto e p c req hp hok
    simp [processLines] at hok
  | cons lineRaw rest ih =>
    intro pp hdrs proto e p c req hp hok v n hv hn
    simp only [processLines] at hok
    cases pp with
    | false =>
      simp only [Bool.not_false, if_true] at hok
      exact ih true hdrs _ e p c req hp hok v n hv hn
    | true =>
      simp only [Bool.not_true] at hok
      rw [if_neg (by simp), if_pos (by simp)] at hok
      split at hok
      · -- blank line
        split at hok
        · -- no Content-Length header
          injection hok with hreq
          subst hreq
          simp_all
        · -- Content-Length present: atoi
          split at hok
          · cases hok
          · -- body phase
            obtain ⟨hh, hc⟩ := processLines_body_ok rest true hdrs proto _ p c req hp hok
            rw [hh] at hv
            simp_all
      · -- header line
        split at hok
        · exact ih true _ proto e p c req hp hok v n hv hn
        · cases hok

/-- Claim C3 (amended): whenever `receive` returns a request whose
`Content-Length` header value Atoi-parses to `n`, the returned body's
length equals `n` exactly.  (The body is not the next `n` raw stream
bytes, however: it is accumulated line-by-line with each trailing
`\r\n` stripped — see the counterexample.) -/
theorem claimC3_body_length (input : String) (req : Request) (v : String) (n : Int)
    (hok : receive input = .ok req)
    (hv : lookupHeader req.headers "Content-Length" = some v)
    (hn : atoi v = some n) :
    (req.content.length : Int) = n := by
  unfold receive at hok
  exact processLines_headers_ok _ false [] "" 0 0 "" req (by norm_num [length_data]) hok v n hv hn

/-- Witness for C3 (amended): a request with `Content-Length: 3` and body
`abc` parses with a body of length 3. -/
theorem claimC3_body_length_witness :
    receive "GET / HTTP/1.1\r\nContent-Length: 3\r\n\r\nabc\r\n"
      = .ok ⟨[("Content-Length", "3")], "GET / HTTP/1.1", "abc"⟩
    ∧ ((("abc" : String).length : Int) = 3) :=
  ⟨by decide,
    claimC3_body_length "GET / HTTP/1.1\r\nContent-Length: 3\r\n\r\nabc\r\n"
      ⟨[("Content-Length", "3")], "GET / HTTP/1.1", "abc"⟩ "3" 3
      (by decide) (by decide) (by decide)⟩

theorem readCRLFLine_append {l : List Char} (h : hasCRLF l = false) (rest : List Char) :
    readCRLFLine (l ++ '\r' :: '\n' :: rest) = some (l, rest) := by
  induction l with
  | nil => simp [readCRLFLine]
  | cons d t ih =>
    cases t with
    | nil => simp [readCRLFLine]
    | cons e r =>
      simp only [hasCRLF] at h
      split at h
      · cases h
      · have hih := ih h
        rw [show (e :: r) ++ '\r' :: '\n' :: rest = e :: (r ++ '\r' :: '\n' :: rest) from rfl] at hih
        rw [show (d :: e :: r) ++ '\r' :: '\n' :: rest = d :: e :: (r ++ '\r' :: '\n' :: rest) from rfl]
        simp only [readCRLFLine]
        rw [if_neg (by assumption), hih]

theorem clientHeaders_step (f : Nat) (input : List Char) :
    clientHeaders (f + 1) input = match readCRLFLine input with
      | none => none
      | some (line, rest) =>
        if line = [] then some ([], rest)
        else
          match splitCS line with
          | k :: v :: _ =>
            match clientHeaders f rest with
            | some (pairs, rem) => some ((String.mk k, String.mk v) :: pairs, rem)
            | none => none
          | _ => none := rfl

theorem clientHeaders_block (hs : List String) (tail : List Char)
    (hw : ∀ h ∈ hs, hasCRLF h.data = false ∧ h.data ≠ [] ∧ ∃ a b, splitCS h.data = [a, b]) :
    hs ≠ [] →
    ∀ fuel, hs.length + 1 ≤ fuel →
      clientHeaders fuel ((joinSep "\r\n" hs).data ++ '\r' :: '\n' :: ('\r' :: '\n' :: tail))
        = some (hs.map linePair, tail) := by
  induction hs with
  | nil => intro hne; exact absurd rfl hne
  | cons h t ih =>
    intro _ fuel hf
    obtain ⟨f, rfl⟩ : ∃ f, fuel = f + 1 := ⟨fuel - 1, by omega⟩
    obtain ⟨hcrlf, hne, a, b, hab⟩ := hw h (by simp)
    cases t with
    | nil =>
      rw [show joinSep "\r\n" [h] = h from rfl]
      rw [clientHeaders_step, readCRLFLine_append hcrlf]
      dsimp only
      rw [if_neg hne]
      rw [hab]
      obtain ⟨f', rfl⟩ : ∃ f', f = f' + 1 := ⟨f - 1, by simp at hf; omega⟩
      rw [clientHeaders_step]
      rw [show readCRLFLine ('\r' :: '\n' :: tail) = some ([], tail) from by simp [readCRLFLine]]
      simp [linePair, hab]
    | cons t1 t2 =>
      rw [show joinSep "\r\n" (h :: t1 :: t2) = h ++ "\r\n" ++ joinSep "\r\n" (t1 :: t2) from rfl]
      rw [show (h ++ "\r\n" ++ joinSep "\r\n" (t1 :: t2)).data
            ++ '\r' :: '\n' :: ('\r' :: '\n' :: tail)
          = h.data ++ '\r' :: '\n' :: ((joinSep "\r\n" (t1 :: t2)).data
            ++ '\r' :: '\n' :: ('\r' :: '\n' :: tail)) from by
        simp [data_append]]
      rw [clientHeaders_step, readCRLFLine_append hcrlf]
      dsimp only
      rw [if_neg hne, hab]
      rw [ih (fun x hx => hw x (by simp [hx])) (by simp) f (by simp at hf ⊢; omega)]
      simp [linePair, hab]

theorem joinSep_data_length_ge (hs : List String) (hne : ∀ h ∈ hs, h.data ≠ []) :
    hs.length ≤ (joinSep "\r\n" hs).data.length := by
  induction hs with
  | nil => simp [joinSep]
  | cons x t ih =>
    cases t with
    | nil =>
      have hx := hne x (by simp)
      simp only [joinSep, List.length_cons, List.length_nil]
      have := List.length_pos.mpr hx
      omega
    | cons y t2 =>
      have hx := hne x (by simp)
      have hih := ih (fun z hz => hne z (by simp [hz]))
      rw [show joinSep "\r\n" (x :: y :: t2) = x ++ "\r\n" ++ joinSep "\r\n" (y :: t2) from rfl]
      simp only [data_append, List.length_append, List.length_cons]
      have hx1 : 1 ≤ x.data.length := List.length_pos.mpr hx
      have h2 : ("\r\n" : String).data.length = 2 := by decide
      simp only [List.length_cons] at hih
      omega

theorem linePair_recombine (h : String) (hex : ∃ a b, splitCS h.data = [a, b]) :
    (linePair h).1 ++ ": " ++ (linePair h).2 = h := by
  obtain ⟨a, b, hab⟩ := hex
  rw [show linePair h = (String.mk a, String.mk b) from by simp [linePair, hab]]
  apply str_ext
  have hj : joinL [':', ' '] (splitCS h.data) = h.data := joinL_splitCS h.data
  rw [hab] at hj
  show (String.mk a ++ ": " ++ String.mk b).data = h.data
  rw [← hj]
  simp [data_append, joinL]

/-- Claim C8 (amended): round-trip holds for well-formed triples — the
status line has no CRLF, every header line is non-empty, CRLF-free and
splits on `": "` into exactly a name and a value, and some header's
client-side (name, value) reading has name `Content-Length` with a value
that Atoi-parses to exactly the body's length.  Parsing the built response
as a client then reproduces the status line, the header pairs (and
reassembling each pair with `": "` gives back exactly the original header
list), and the body bytes.  Without a matching `Content-Length` the body
is lost (see the counterexample). -/
theorem claimC8_round_trip (p body : String) (hs : List String)
    (hp : hasCRLF p.data = false)
    (hhs : ∀ h ∈ hs, hasCRLF h.data = false ∧ h.data ≠ [] ∧ ∃ a b, splitCS h.data = [a, b])
    (hcl : ∃ v, lookupHeader (hs.map linePair) "Content-Length" = some v
      ∧ atoi v = some (body.length : Int)) :
    clientParse (buildResponse p (some hs) body).data = some (p, hs.map linePair, body)
    ∧ (hs.map linePair).map (fun q => q.1 ++ ": " ++ q.2) = hs := by
  obtain ⟨v, hlkv, hvn⟩ := hcl
  constructor
  · cases hs with
    | nil => simp [lookupHeader] at hlkv
    | cons h t =>
      have hwire : (buildResponse p (some (h :: t)) body).data
          = p.data ++ '\r' :: '\n'
            :: ((joinSep "\r\n" (h :: t)).data ++ '\r' :: '\n' :: ('\r' :: '\n'
              :: (if body.length ≠ 0 then body.data ++ ['\r', '\n'] else []))) := by
        dsimp only [buildResponse]
        split <;> simp_all [data_append, List.append_assoc]
      rw [hwire]
      unfold clientParse
      rw [readCRLFLine_append hp]
      dsimp only
      have hblock := clientHeaders_block (h :: t)
        (if body.length ≠ 0 then body.data ++ ['\r', '\n'] else []) hhs (by simp)
      have hbound : (h :: t).length + 1
          ≤ ((joinSep "\r\n" (h :: t)).data ++ '\r' :: '\n' :: ('\r' :: '\n'
            :: (if body.length ≠ 0 then body.data ++ ['\r', '\n'] else []))).length + 1 := by
        have := joinSep_data_length_ge (h :: t) (fun z hz => (hhs z hz).2.1)
        simp only [List.length_cons] at this
        simp only [List.length_append, List.length_cons]
        omega
      rw [hblock _ hbound]
      dsimp only
      rw [hlkv]
      dsimp only
      rw [hvn]
      dsimp only
      have htoNat : ((body.length : Int)).toNat = body.length := Int.toNat_natCast body.length
      by_cases hb : body.length = 0
      · rw [if_pos]
        · have hdn : body.data = [] := List.length_eq_zero.mp hb
          have hbody : body = "" := str_ext (by rw [hdn])
          subst hbody
          simp
        · constructor
          · positivity
          · rw [htoNat, hb]
            exact Nat.zero_le _
      · rw [if_pos]
        · rw [htoNat]
          rw [show (if body.length ≠ 0 then body.data ++ ['\r', '\n'] else [])
              = body.data ++ ['\r', '\n'] from if_pos hb]
          rw [show body.length = body.data.length from rfl, List.take_left]
        · constructor
          · positivity
          · rw [htoNat]
            rw [show (if body.length ≠ 0 then body.data ++ ['\r', '\n'] else [])
                = body.data ++ ['\r', '\n'] from if_pos hb]
            rw [List.length_append]
            rw [show body.length = body.data.length from rfl]
            omega
  · rw [List.map_map]
    have hcong : ∀ x ∈ hs, ((fun q : String × String => q.1 ++ ": " ++ q.2) ∘ linePair) x = id x :=
      fun x hx => linePair_recombine x (hhs x hx).2.2
    rw [List.map_congr_left hcong, List.map_id]

/-- Witness for C8 (amended) at a 200 response with `Content-Type` and
`Content-Length: 3` headers and body `abc`. -/
theorem claimC8_round_trip_witness :
    clientParse (buildResponse "HTTP/1.1 200 OK"
        (some ["Content-Type: text/plain", "Content-Length: 3"]) "abc").data
      = some ("HTTP/1.1 200 OK",
          (["Content-Type: text/plain", "Content-Length: 3"] : List String).map linePair, "abc")
    ∧ ((["Content-Type: text/plain", "Content-Length: 3"] : List String).map linePair).map
        (fun q => q.1 ++ ": " ++ q.2) = ["Content-Type: text/plain", "Content-Length: 3"] :=
  claimC8_round_trip "HTTP/1.1 200 OK" "abc" ["Content-Type: text/plain", "Content-Length: 3"]
    (by decide)
    (by
      intro x hx
      fin_cases hx
      · exact ⟨by decide, by decide, "Content-Type".data, "text/plain".data, by decide⟩
      · exact ⟨by decide, by decide, "Content-Length".data, "3".data, by decide⟩)
    ⟨"3", by decide, by decide⟩

end HttpSrv
